import Mathlib

/-!
# Verification of the kiln exit-prediction pipeline (`app.py`)

Shallow embedding of the shift-window prediction pipeline of the repository
`prediccion-hornos` (single source file `app.py`).

Modelling conventions:
* A time-of-day (`datetime.time`) is `Hora` with hour/minute/second fields.
* An instant (`datetime.datetime`) is a rational number of seconds since an
  arbitrary epoch; a calendar date is its ordinal day number (an `Int`).
  `datetime.combine` becomes `combine`.
* `timedelta(hours=t)` is `3600 * t` seconds, with `t : ℚ` (cure durations are
  modelled as exact rationals; Python's float-hours value is rounded by
  `timedelta` to microseconds, below every granularity the claims mention).
* `pandas` is modelled on lists: a dataframe is a column-name list plus a row
  list, `dropna` is a filter, `groupby(...).sum()` with its default ascending
  key sort is a sorted association list.
* `pd.to_datetime(..., errors="coerce")` (free-form date parsing by pandas) is
  an abstract parameter `parseFecha : String → Option Int` returning the
  ordinal day or `none` (NaT); the pipeline theorems hold for every such
  parser.  Time parsing (`parse_hora`) is embedded in full.
-/

/-- A time-of-day, as produced by `datetime.strptime(...).time()` in `app.py`.
Parsed values always satisfy `hour ≤ 23`, `minute ≤ 59`, `second ≤ 59`. -/
structure Hora where
  hour : Nat
  minute : Nat
  second : Nat
deriving DecidableEq, Repr

/-- Seconds elapsed since midnight. -/
def Hora.toSeconds (t : Hora) : Nat :=
  t.hour * 3600 + t.minute * 60 + t.second

/-- `str(h).strip()`: drop the whitespace at both ends of the raw value. -/
def recortar (cs : List Char) : List Char :=
  ((cs.dropWhile Char.isWhitespace).reverse.dropWhile Char.isWhitespace).reverse

/-- Split a character list at every `':'` (the field separator of the two
accepted `strptime` patterns); a list with no `':'` yields one field. -/
def camposDosPuntos : List Char → List (List Char)
  | [] => [[]]
  | c :: rest =>
    match camposDosPuntos rest with
    | [] => [[]]
    | g :: gs => if c = ':' then [] :: g :: gs else (c :: g) :: gs

/-- Numeric value of a digit run. -/
def valorDigitos (cs : List Char) : Nat :=
  cs.foldl (fun n c => 10 * n + (c.toNat - 48)) 0

/-- One numeric field of a `strptime` pattern (`%H`, `%M` or `%S`): one or two
decimal digits whose value is at most `maxVal`; anything else fails. -/
def campoNum (maxVal : Nat) (cs : List Char) : Option Nat :=
  if (cs.length = 1 ∨ cs.length = 2) ∧ cs.all Char.isDigit then
    if valorDigitos cs ≤ maxVal then some (valorDigitos cs) else none
  else none

/-- `datetime.strptime(s, "%H:%M").time()` on a stripped value: exactly two
`:`-separated numeric fields, hour ≤ 23 and minute ≤ 59; seconds default
to 0. -/
def strptimeHM (cs : List Char) : Option Hora :=
  match camposDosPuntos cs with
  | [h, m] => do
    let hv ← campoNum 23 h
    let mv ← campoNum 59 m
    some ⟨hv, mv, 0⟩
  | _ => none

/-- `datetime.strptime(s, "%H:%M:%S").time()` on a stripped value: exactly
three `:`-separated numeric fields, hour ≤ 23, minute ≤ 59, second ≤ 59 (a
second of 60 or 61 makes `datetime` raise, which `parse_hora` turns into a
failure as well). -/
def strptimeHMS (cs : List Char) : Option Hora :=
  match camposDosPuntos cs with
  | [h, m, sec] => do
    let hv ← campoNum 23 h
    let mv ← campoNum 59 m
    let sv ← campoNum 59 sec
    some ⟨hv, mv, sv⟩
  | _ => none

/-- `parse_hora` (`app.py` lines 81–88): strip the raw value, try `%H:%M`
first, on failure try `%H:%M:%S`, on failure return `NaT` (here `none`).
Total on all strings; never raises. -/
def parse_hora (h : String) : Option Hora :=
  match strptimeHM (recortar h.data) with
  | some t => some t
  | none => strptimeHMS (recortar h.data)

/-- First maximal run of decimal digits of a character list, if any
(the regex `(\d+)` of `app.py` line 78). -/
def primerRunDigitos : List Char → Option (List Char)
  | [] => none
  | c :: rest =>
    if c.isDigit then some (c :: rest.takeWhile Char.isDigit)
    else primerRunDigitos rest

/-- `df["horno"].astype(str).str.extract(r"(\d+)")` (`app.py` line 78): the
first run of decimal digits of the kiln field as a number, or `none` (NaN)
when the string contains no digit. -/
def extraerDigitos (s : String) : Option Nat :=
  (primerRunDigitos s.data).map valorDigitos

/-- The per-kiln cure durations entered in step 1 (`horno1 … horno4`,
hours, non-negative). -/
structure HornoTiempos where
  horno1 : ℚ
  horno2 : ℚ
  horno3 : ℚ
  horno4 : ℚ
deriving DecidableEq, Repr

/-- `horno_tiempos.get(horno, 0)` (`app.py` line 109) where
`horno_tiempos = {1: horno1, 2: horno2, 3: horno3, 4: horno4}` and `horno`
is the extracted kiln number, or `None` when the field had no digits. -/
def HornoTiempos.get (t : HornoTiempos) : Option Nat → ℚ
  | some 1 => t.horno1
  | some 2 => t.horno2
  | some 3 => t.horno3
  | some 4 => t.horno4
  | _ => 0

/-- `any(v == 0 for v in horno_tiempos.values())` (`app.py` line 26). -/
def HornoTiempos.algunoCero (t : HornoTiempos) : Bool :=
  t.horno1 = 0 ∨ t.horno2 = 0 ∨ t.horno3 = 0 ∨ t.horno4 = 0

/-- `datetime.combine(fecha, hora)`: the instant (in seconds since the epoch)
at time-of-day `hora` of ordinal day `fecha`. -/
def combine (fecha : Int) (hora : Hora) : ℚ :=
  86400 * (fecha : ℚ) + (hora.toSeconds : ℚ)

/-- `calcular_salida` (`app.py` lines 107–110): predicted exit instant of a
row, `fechaHoraEntrada + timedelta(hours=horno_tiempos.get(horno, 0))`. -/
def calcular_salida (t : HornoTiempos) (horno : Option Nat) (entrada : ℚ) : ℚ :=
  entrada + 3600 * t.get horno

/-- `rango` (`app.py` lines 116–122): the concrete shift interval anchored at
`fecha`.  Both bounds start on the anchor day; when the end instant is before
the start instant the end is pushed one day forward. -/
def rango (horaInicio horaFin : Hora) (fecha : Int) : ℚ × ℚ :=
  let inicio := combine fecha horaInicio
  let fin := combine fecha horaFin
  if fin < inicio then (inicio, fin + 86400) else (inicio, fin)

/-- `en_rango` (`app.py` lines 124–127): membership of the predicted exit in
the shift interval anchored at the row's own capture date, with both bounds
inclusive (`inicio <= salida <= fin`). -/
def en_rango (horaInicio horaFin : Hora) (fecha : Int) (salida : ℚ) : Bool :=
  decide ((rango horaInicio horaFin fecha).1 ≤ salida ∧
    salida ≤ (rango horaInicio horaFin fecha).2)

/-- A raw row of the uploaded file, after `astype(str)` coercions: the five
required fields as the uploaded text.  `cantidad` (a number in the file) is
kept numeric, as an exact value. -/
structure FilaCruda where
  fechaCaptura : String
  hora : String
  horno : String
  cantidad : Int
  material : String
deriving DecidableEq, Repr

/-- The uploaded dataframe: its (stripped) column names and its rows. -/
structure Tabla where
  columnas : List String
  filas : List FilaCruda
deriving DecidableEq, Repr

/-- `columnas_necesarias` (`app.py` line 72). -/
def columnas_necesarias : List String :=
  ["fechaCaptura", "hora", "horno", "cantidad", "material"]

/-- A row that survived normalisation: extracted kiln number (`none` = NaN),
parsed capture date and time, entry instant, predicted exit instant and the
shift-membership flag. -/
structure FilaCalc where
  horno : Option Nat
  material : String
  cantidad : Int
  fecha : Int
  hora : Hora
  entrada : ℚ
  salida : ℚ
  enRango : Bool
deriving DecidableEq, Repr

/-- Normalisation of one raw row (`app.py` lines 78–127): kiln-number
extraction, date and time parsing, `dropna` on unparseable date/time (`none`
here), entry instant `datetime.combine(fecha, hora)`, exit prediction and
shift classification anchored at the row's own capture date.  The kiln field
is never a reason to drop the row. -/
def normalizarFila (t : HornoTiempos) (horaInicio horaFin : Hora)
    (parseFecha : String → Option Int) (r : FilaCruda) : Option FilaCalc :=
  match parseFecha r.fechaCaptura, parse_hora r.hora with
  | some fecha, some hora =>
    let horno := extraerDigitos r.horno
    let entrada := combine fecha hora
    let salida := calcular_salida t horno entrada
    some { horno := horno, material := r.material, cantidad := r.cantidad,
           fecha := fecha, hora := hora, entrada := entrada, salida := salida,
           enRango := en_rango horaInicio horaFin fecha salida }
  | _, _ => none

/-- Whether a raw row has an unparseable date or time
(`df["fechaCaptura"].isna() | df["hora"].isna()`, `app.py` line 98). -/
def filaInvalida (parseFecha : String → Option Int) (r : FilaCruda) : Bool :=
  (parseFecha r.fechaCaptura).isNone || (parse_hora r.hora).isNone

/-- Insert a quantity for a material into an association list kept strictly
sorted by material, merging quantities of equal materials. -/
def insertarMaterial (m : String) (q : Int) :
    List (String × Int) → List (String × Int)
  | [] => [(m, q)]
  | (m', q') :: rest =>
    if m = m' then (m', q' + q) :: rest
    else if m < m' then (m, q) :: (m', q') :: rest
    else (m', q') :: insertarMaterial m q rest

/-- `df_salida.groupby("material", as_index=False)["cantidad"].sum()`
(`app.py` line 135): quantities summed per material, result sorted by
material in ascending order (pandas' default `sort=True`). -/
def resumenMateriales : List FilaCalc → List (String × Int)
  | [] => []
  | r :: rest => insertarMaterial r.material r.cantidad (resumenMateriales rest)

/-- One row of the displayed detail table
(`df_salida[["material", "horno", "cantidad", "fechaHoraSalida"]]`,
`app.py` line 145). -/
structure FilaDetalle where
  material : String
  horno : Option Nat
  cantidad : Int
  salida : ℚ
deriving DecidableEq, Repr

/-- The errors that abort a run before any row is processed. -/
inductive ErrorPipeline where
  /-- Some cure duration is 0 (`app.py` lines 26–28). -/
  | incompleteConfiguration
  /-- A required column is absent; the payload is the set of column names
  the error message names (`app.py` lines 73–75). -/
  | missingColumns (nombradas : List String)
deriving DecidableEq, Repr

/-- The successful output of one run. -/
structure Salida where
  /-- Whether the unparseable-row warning was shown (`app.py` line 99). -/
  advertenciaFilas : Bool
  /-- The normalised rows the run worked on (`df` after `dropna`). -/
  filasUsables : List FilaCalc
  /-- `df_salida`: the rows classified in-shift, in original order. -/
  filasEnTurno : List FilaCalc
  /-- The per-material summary, sorted by material. -/
  resumen : List (String × Int)
  /-- `total_piezas`: the sum of the summary's quantities. -/
  total : Int
  /-- The displayed per-row detail, in original order. -/
  detalle : List FilaDetalle
deriving DecidableEq, Repr

/-- The whole prediction pipeline of `app.py` (lines 26–145), for a given
cure-duration table, shift window, date parser and uploaded table:
1. stop with `incompleteConfiguration` if any cure duration is 0 (line 26);
2. stop with `missingColumns` if a required column is absent, the error
   naming the columns the message lists (lines 73–75);
3. normalise rows, dropping (and warning about) unparseable ones, predict
   exit instants and classify them into the shift window anchored at each
   row's own capture date (lines 78–127);
4. filter to the in-shift rows, aggregate by material and expose the detail
   (lines 129–145). -/
def pipeline (t : HornoTiempos) (horaInicio horaFin : Hora)
    (parseFecha : String → Option Int) (tabla : Tabla) :
    Except ErrorPipeline Salida :=
  if t.algunoCero then
    .error .incompleteConfiguration
  else if ¬ columnas_necesarias.all (· ∈ tabla.columnas) then
    .error (.missingColumns columnas_necesarias)
  else
    let usables := tabla.filas.filterMap
      (normalizarFila t horaInicio horaFin parseFecha)
    let enTurno := usables.filter (·.enRango)
    let resumen := resumenMateriales enTurno
    .ok { advertenciaFilas := tabla.filas.any (filaInvalida parseFecha),
          filasUsables := usables,
          filasEnTurno := enTurno,
          resumen := resumen,
          total := (resumen.map (·.2)).sum,
          detalle := enTurno.map
            (fun r => ⟨r.material, r.horno, r.cantidad, r.salida⟩) }

/-! ## Helper lemmas -/

theorem combine_lt_combine_iff (d : Int) (t₁ t₂ : Hora) :
    combine d t₁ < combine d t₂ ↔ t₁.toSeconds < t₂.toSeconds := by
  unfold combine
  rw [add_lt_add_iff_left]
  exact_mod_cast Iff.rfl

theorem combine_succ (d : Int) (t : Hora) :
    combine (d + 1) t = combine d t + 86400 := by
  unfold combine
  push_cast
  ring

theorem rango_eq_ite (hi hf : Hora) (d : Int) :
    rango hi hf d =
      if combine d hf < combine d hi then (combine d hi, combine d hf + 86400)
      else (combine d hi, combine d hf) := rfl

theorem rango_fst (hi hf : Hora) (d : Int) :
    (rango hi hf d).1 = combine d hi := by
  rw [rango_eq_ite]
  split <;> rfl

/-! ## Claims -/

/-- **C1.** Shift window resolution: for every anchor date `d`, a window whose
end time-of-day is not earlier than its start resolves to the same-day
interval `[combine d hi, combine d hf]`; a window whose end time-of-day is
strictly earlier than its start resolves to `[combine d hi, combine (d+1) hf]`
— the end instant is moved to the next calendar day exactly when
`hf < hi`. -/
theorem rango_resolucion (hi hf : Hora) (d : Int) :
    rango hi hf d =
      if hf.toSeconds < hi.toSeconds then (combine d hi, combine (d + 1) hf)
      else (combine d hi, combine d hf) := by
  rw [rango_eq_ite]
  by_cases h : hf.toSeconds < hi.toSeconds
  · rw [if_pos ((combine_lt_combine_iff d hf hi).mpr h), if_pos h, combine_succ]
  · rw [if_neg (fun hc => h ((combine_lt_combine_iff d hf hi).mp hc)), if_neg h]

theorem rango_fst_le_snd (hi hf : Hora) (d : Int) (hv : hi.toSeconds < 86400) :
    (rango hi hf d).1 ≤ (rango hi hf d).2 := by
  have hsi : (hi.toSeconds : ℚ) < 86400 := by exact_mod_cast hv
  have hsf : (0 : ℚ) ≤ (hf.toSeconds : ℚ) := by positivity
  rw [rango_eq_ite]
  split
  · unfold combine
    dsimp only
    linarith
  · dsimp only
    linarith [not_lt.mp (by assumption : ¬ combine d hf < combine d hi)]

/-- **C2.** Classifier membership is inclusive at both bounds: for every
resolved shift interval `[S, E]` (of a window whose start is a genuine
time-of-day, i.e. earlier than 24:00) an exit instant `t` is classified
in-shift exactly when `S ≤ t ∧ t ≤ E`; in particular `t = S` and `t = E`
are both classified in-shift. -/
theorem en_rango_inclusivo (hi hf : Hora) (d : Int) (t : ℚ)
    (hv : hi.toSeconds < 86400) :
    (en_rango hi hf d t = true ↔
      (rango hi hf d).1 ≤ t ∧ t ≤ (rango hi hf d).2) ∧
    en_rango hi hf d (rango hi hf d).1 = true ∧
    en_rango hi hf d (rango hi hf d).2 = true := by
  refine ⟨by simp [en_rango], ?_, ?_⟩
  · simp only [en_rango, decide_eq_true_eq]
    exact ⟨le_refl _, rango_fst_le_snd hi hf d hv⟩
  · simp only [en_rango, decide_eq_true_eq]
    exact ⟨rango_fst_le_snd hi hf d hv, le_refl _⟩

/-- Witness for C2 at the day shift 06:00–14:00 and anchor day 0: the end
bound itself (14:00, instant 50400) is classified in-shift. -/
theorem en_rango_inclusivo_witness :
    en_rango ⟨6, 0, 0⟩ ⟨14, 0, 0⟩ 0 (rango ⟨6, 0, 0⟩ ⟨14, 0, 0⟩ 0).2 = true :=
  (en_rango_inclusivo ⟨6, 0, 0⟩ ⟨14, 0, 0⟩ 0 0 (by decide)).2.2

theorem normalizarFila_eq_some (t : HornoTiempos) (hi hf : Hora)
    (pf : String → Option Int) (r : FilaCruda) (f : FilaCalc)
    (h : normalizarFila t hi hf pf r = some f) :
    ∃ d hr, pf r.fechaCaptura = some d ∧ parse_hora r.hora = some hr ∧
      f = { horno := extraerDigitos r.horno, material := r.material,
            cantidad := r.cantidad, fecha := d, hora := hr,
            entrada := combine d hr,
            salida := calcular_salida t (extraerDigitos r.horno) (combine d hr),
            enRango := en_rango hi hf d
              (calcular_salida t (extraerDigitos r.horno) (combine d hr)) } := by
  unfold normalizarFila at h
  rcases hd : pf r.fechaCaptura with _ | d <;> rw [hd] at h
  · rcases hh : parse_hora r.hora with _ | hr <;> rw [hh] at h <;>
      exact absurd h (by simp)
  · rcases hh : parse_hora r.hora with _ | hr <;> rw [hh] at h
    · exact absurd h (by simp)
    · exact ⟨d, hr, rfl, rfl, (Option.some_inj.mp h).symm⟩

theorem pipeline_ok_inv (t : HornoTiempos) (hi hf : Hora)
    (pf : String → Option Int) (tabla : Tabla) (s : Salida)
    (h : pipeline t hi hf pf tabla = .ok s) :
    t.algunoCero = false ∧
    columnas_necesarias.all (· ∈ tabla.columnas) = true ∧
    s = { advertenciaFilas := tabla.filas.any (filaInvalida pf),
          filasUsables := tabla.filas.filterMap (normalizarFila t hi hf pf),
          filasEnTurno :=
            (tabla.filas.filterMap (normalizarFila t hi hf pf)).filter
              (·.enRango),
          resumen := resumenMateriales
            ((tabla.filas.filterMap (normalizarFila t hi hf pf)).filter
              (·.enRango)),
          total := ((resumenMateriales
            ((tabla.filas.filterMap (normalizarFila t hi hf pf)).filter
              (·.enRango))).map (·.2)).sum,
          detalle :=
            ((tabla.filas.filterMap (normalizarFila t hi hf pf)).filter
              (·.enRango)).map
              (fun r => ⟨r.material, r.horno, r.cantidad, r.salida⟩) } := by
  unfold pipeline at h
  by_cases h0 : t.algunoCero = true
  · rw [if_pos h0] at h
    exact absurd h (by simp)
  · rw [if_neg h0] at h
    by_cases hc : columnas_necesarias.all (· ∈ tabla.columnas) = true
    · rw [if_neg (by simp [hc])] at h
      exact ⟨by simpa using h0, hc, (Except.ok.inj h).symm⟩
    · rw [if_pos (by simpa using hc)] at h
      exact absurd h (by simp)

theorem pipeline_ok_of_checks (t : HornoTiempos) (hi hf : Hora)
    (pf : String → Option Int) (tabla : Tabla)
    (h0 : t.algunoCero = false)
    (hc : columnas_necesarias.all (· ∈ tabla.columnas) = true) :
    ∃ s, pipeline t hi hf pf tabla = .ok s := by
  unfold pipeline
  rw [if_neg (by simp [h0]), if_neg (by simp [hc])]
  exact ⟨_, rfl⟩

/-- **C3.** Per-row anchoring: in every successful run, each usable row's
in-shift flag is computed from the shift window anchored at that row's own
capture date (not a global date), and windows anchored at different capture
dates are different concrete intervals. -/
theorem clasificacion_anclada_por_fila (t : HornoTiempos) (hi hf : Hora)
    (pf : String → Option Int) (tabla : Tabla) (s : Salida)
    (h : pipeline t hi hf pf tabla = .ok s) :
    (∀ f ∈ s.filasUsables, f.enRango = en_rango hi hf f.fecha f.salida) ∧
    ∀ d₁ d₂ : Int, d₁ ≠ d₂ → rango hi hf d₁ ≠ rango hi hf d₂ := by
  obtain ⟨-, -, hs⟩ := pipeline_ok_inv t hi hf pf tabla s h
  constructor
  · intro f hmem
    rw [hs] at hmem
    simp only [List.mem_filterMap] at hmem
    obtain ⟨r, -, hr⟩ := hmem
    obtain ⟨d, hrr, -, -, rfl⟩ := normalizarFila_eq_some t hi hf pf r f hr
    rfl
  · intro d₁ d₂ hne heq
    have h1 := congrArg Prod.fst heq
    rw [rango_fst, rango_fst] at h1
    unfold combine at h1
    have h2 : (d₁ : ℚ) = d₂ :=
      mul_left_cancel₀ (by norm_num : (86400 : ℚ) ≠ 0) (add_right_cancel h1)
    exact hne (by exact_mod_cast h2)

/-- Witness for C3: a concrete successful run, from which the windows
anchored at days 3 and 4 are different intervals. -/
theorem clasificacion_anclada_por_fila_witness :
    rango ⟨6, 0, 0⟩ ⟨14, 0, 0⟩ 3 ≠ rango ⟨6, 0, 0⟩ ⟨14, 0, 0⟩ 4 :=
  (clasificacion_anclada_por_fila ⟨1, 1, 1, 1⟩ ⟨6, 0, 0⟩ ⟨14, 0, 0⟩
      (fun _ => none) ⟨columnas_necesarias, []⟩
      ⟨false, [], [], [], 0, []⟩ rfl).2 3 4 (by decide)

theorem HornoTiempos.get_fuera (t : HornoTiempos) :
    ∀ k : Nat, k ∉ ([1, 2, 3, 4] : List Nat) → t.get (some k) = 0 := by
  intro k hk
  match k with
  | 0 => rfl
  | 1 => simp at hk
  | 2 => simp at hk
  | 3 => simp at hk
  | 4 => simp at hk
  | (n + 5) => rfl

/-- **C4.** ExitPredictor: for every usable row of a successful run, the
predicted exit instant equals the entry instant plus the kiln's cure duration
in hours, exactly (instants and durations are exact rationals, so no sub-hour
precision is lost); a kiln number absent from the cure table — including the
digitless case `none` — contributes duration 0, so the exit equals the entry.
`calcular_salida` is total on all inputs by construction. -/
theorem calculo_salida_exacto (t : HornoTiempos) (hi hf : Hora)
    (pf : String → Option Int) (tabla : Tabla) (s : Salida)
    (h : pipeline t hi hf pf tabla = .ok s) :
    ∀ f ∈ s.filasUsables,
      f.salida = f.entrada + 3600 * t.get f.horno ∧
      (∀ k, f.horno = some k → k ∉ ([1, 2, 3, 4] : List Nat) →
        f.salida = f.entrada) ∧
      (f.horno = none → f.salida = f.entrada) := by
  obtain ⟨-, -, hs⟩ := pipeline_ok_inv t hi hf pf tabla s h
  intro f hmem
  rw [hs] at hmem
  simp only [List.mem_filterMap] at hmem
  obtain ⟨r, -, hr⟩ := hmem
  obtain ⟨d, hrh, -, -, rfl⟩ := normalizarFila_eq_some t hi hf pf r f hr
  refine ⟨rfl, ?_, ?_⟩
  · intro k hk hnk
    simp only at hk
    show calcular_salida t (extraerDigitos r.horno) _ = _
    unfold calcular_salida
    rw [hk, HornoTiempos.get_fuera t k hnk]
    ring
  · intro hk
    simp only at hk
    show calcular_salida t (extraerDigitos r.horno) _ = _
    unfold calcular_salida
    rw [hk]
    show _ + 3600 * t.get none = _
    simp [HornoTiempos.get]

theorem pipeline_eq_ok (t : HornoTiempos) (hi hf : Hora)
    (pf : String → Option Int) (tabla : Tabla)
    (h0 : t.algunoCero = false)
    (hc : columnas_necesarias.all (· ∈ tabla.columnas) = true) :
    pipeline t hi hf pf tabla = .ok
      { advertenciaFilas := tabla.filas.any (filaInvalida pf),
        filasUsables := tabla.filas.filterMap (normalizarFila t hi hf pf),
        filasEnTurno :=
          (tabla.filas.filterMap (normalizarFila t hi hf pf)).filter
            (·.enRango),
        resumen := resumenMateriales
          ((tabla.filas.filterMap (normalizarFila t hi hf pf)).filter
            (·.enRango)),
        total := ((resumenMateriales
          ((tabla.filas.filterMap (normalizarFila t hi hf pf)).filter
            (·.enRango))).map (·.2)).sum,
        detalle :=
          ((tabla.filas.filterMap (normalizarFila t hi hf pf)).filter
            (·.enRango)).map
            (fun r => ⟨r.material, r.horno, r.cantidad, r.salida⟩) } := by
  unfold pipeline
  rw [if_neg (by simp [h0]), if_neg (by simp [hc])]

/-- A sample date parser for concrete runs: it recognises one date string. -/
def ejemploParseFecha : String → Option Int :=
  fun s => if s = "2024-05-06" then some 0 else none

/-- A sample uploaded table: one fully parseable row, one row with an
unparseable date and one row with an unparseable time. -/
def ejemploTabla : Tabla :=
  ⟨columnas_necesarias,
   [⟨"2024-05-06", "07:00", "Horno 3", 10, "A"⟩,
    ⟨"mal", "07:00", "1", 5, "B"⟩,
    ⟨"2024-05-06", "xx", "2", 7, "C"⟩]⟩

/-- The normalised form of the sample table's one parseable row, with all
cure durations set to 1 hour and the 06:00–14:00 shift. -/
def ejemploFila : FilaCalc :=
  ⟨some 3, "A", 10, 0, ⟨7, 0, 0⟩, 25200, 28800, true⟩

/-- The output of the sample run. -/
def ejemploSalida : Salida :=
  ⟨true, [ejemploFila], [ejemploFila], [("A", 10)], 10,
   [⟨"A", some 3, 10, 28800⟩]⟩

theorem pipeline_ejemplo :
    pipeline ⟨1, 1, 1, 1⟩ ⟨6, 0, 0⟩ ⟨14, 0, 0⟩ ejemploParseFecha ejemploTabla
      = .ok ejemploSalida := by
  simp +decide [pipeline, normalizarFila, filaInvalida, resumenMateriales,
    insertarMaterial, calcular_salida, en_rango, rango, combine,
    HornoTiempos.get, HornoTiempos.algunoCero, Hora.toSeconds,
    columnas_necesarias, List.filterMap, List.filter, List.any, List.all,
    List.map, List.sum, List.foldl, parse_hora, extraerDigitos, recortar,
    camposDosPuntos, campoNum, valorDigitos, primerRunDigitos, strptimeHM,
    strptimeHMS, Char.toNat, ejemploParseFecha, ejemploTabla, ejemploFila,
    ejemploSalida]
  norm_num [resumenMateriales, insertarMaterial, List.foldr, List.map,
    ejemploFila]

/-- Witness for C4 at the sample run: the usable row's exit instant equals
its entry instant plus its kiln's cure duration (1 hour). -/
theorem calculo_salida_exacto_witness :
    ejemploFila.salida =
      ejemploFila.entrada +
        3600 * (HornoTiempos.mk 1 1 1 1).get ejemploFila.horno := by
  have h := calculo_salida_exacto ⟨1, 1, 1, 1⟩ ⟨6, 0, 0⟩ ⟨14, 0, 0⟩
    ejemploParseFecha ejemploTabla ejemploSalida pipeline_ejemplo
    ejemploFila (by simp [ejemploSalida])
  exact h.1

/-- **C5.** Cure-duration precondition: if any of the four configured cure
durations is zero, the run fails with `incompleteConfiguration`, whatever the
uploaded table holds — the check is up front and independent of row content,
so no row is normalised, predicted or classified. -/
theorem configuracion_incompleta (t : HornoTiempos) (hi hf : Hora)
    (pf : String → Option Int)
    (h : t.horno1 = 0 ∨ t.horno2 = 0 ∨ t.horno3 = 0 ∨ t.horno4 = 0) :
    ∀ tabla : Tabla,
      pipeline t hi hf pf tabla = .error .incompleteConfiguration := by
  intro tabla
  unfold pipeline
  rw [if_pos]
  simp only [HornoTiempos.algunoCero, decide_eq_true_eq]
  exact h

/-- Witness for C5: with kiln 1's duration left at 0 the sample run fails
with `incompleteConfiguration`. -/
theorem configuracion_incompleta_witness :
    pipeline ⟨0, 1, 1, 1⟩ ⟨6, 0, 0⟩ ⟨14, 0, 0⟩ ejemploParseFecha ejemploTabla
      = .error .incompleteConfiguration :=
  configuracion_incompleta ⟨0, 1, 1, 1⟩ ⟨6, 0, 0⟩ ⟨14, 0, 0⟩ ejemploParseFecha
    (Or.inl rfl) ejemploTabla

/-- **C6, counterexample to the claim as stated.**  On a table missing only
`material`, the error does not name the missing set `{material}`: it names
the full required set, which also contains columns that are present (e.g.
`hora`). -/
theorem validacion_columnas_contraejemplo :
    pipeline ⟨1, 1, 1, 1⟩ ⟨6, 0, 0⟩ ⟨14, 0, 0⟩ (fun _ => none)
        ⟨["fechaCaptura", "hora", "horno", "cantidad"], []⟩ =
      .error (.missingColumns columnas_necesarias) ∧
    columnas_necesarias ≠ ["material"] ∧
    "hora" ∈ columnas_necesarias ∧
    "hora" ∈ ["fechaCaptura", "hora", "horno", "cantidad"] := by
  refine ⟨?_, by decide, by decide, by decide⟩
  unfold pipeline
  rw [if_neg (by decide), if_pos (by decide)]

/-- **C6 (amended).**  Schema validation: if any required column is absent
the pipeline fails with `missingColumns` naming the full required column set
(not just the missing ones), before any row is processed and with no rows in
the output; if all required columns are present, the stage passes the table
through unchanged and the run proceeds on exactly the uploaded rows. -/
theorem validacion_columnas (t : HornoTiempos) (hi hf : Hora)
    (pf : String → Option Int) (tabla : Tabla)
    (h0 : t.algunoCero = false) :
    ((∃ c ∈ columnas_necesarias, c ∉ tabla.columnas) →
      pipeline t hi hf pf tabla =
        .error (.missingColumns columnas_necesarias)) ∧
    ((∀ c ∈ columnas_necesarias, c ∈ tabla.columnas) →
      ∃ s, pipeline t hi hf pf tabla = .ok s ∧
        s.filasUsables = tabla.filas.filterMap (normalizarFila t hi hf pf)) := by
  constructor
  · rintro ⟨c, hc, hnc⟩
    unfold pipeline
    rw [if_neg (by simp [h0]), if_pos]
    intro hall
    simp only [List.all_eq_true, decide_eq_true_eq] at hall
    exact hnc (hall c hc)
  · intro hall
    refine ⟨_, pipeline_eq_ok t hi hf pf tabla h0
      (by simp only [List.all_eq_true, decide_eq_true_eq]; exact hall), rfl⟩

/-- Witness for C6 (amended): the sample table has every required column, so
the run proceeds; a table without `material` fails naming the required set. -/
theorem validacion_columnas_witness :
    pipeline ⟨1, 1, 1, 1⟩ ⟨6, 0, 0⟩ ⟨14, 0, 0⟩ ejemploParseFecha
        ⟨["fechaCaptura", "hora", "horno", "cantidad"], ejemploTabla.filas⟩ =
      .error (.missingColumns columnas_necesarias) :=
  (validacion_columnas ⟨1, 1, 1, 1⟩ ⟨6, 0, 0⟩ ⟨14, 0, 0⟩ ejemploParseFecha
      ⟨["fechaCaptura", "hora", "horno", "cantidad"], ejemploTabla.filas⟩
      (by decide)).1 ⟨"material", by decide, by decide⟩

theorem normalizarFila_none_iff (t : HornoTiempos) (hi hf : Hora)
    (pf : String → Option Int) (r : FilaCruda) :
    normalizarFila t hi hf pf r = none ↔ filaInvalida pf r = true := by
  unfold normalizarFila filaInvalida
  rcases hd : pf r.fechaCaptura with _ | d <;>
    rcases hh : parse_hora r.hora with _ | hr <;> simp [hd, hh]

theorem length_filterMap_add_countP {α β : Type} (F : α → Option β)
    (p : α → Bool) (hp : ∀ r, F r = none ↔ p r = true) :
    ∀ l : List α, (l.filterMap F).length + l.countP p = l.length := by
  intro l
  induction l with
  | nil => simp
  | cons a l ih =>
    cases hpa : p a with
    | true =>
      rw [List.filterMap_cons, (hp a).mpr hpa, List.countP_cons]
      simp only [hpa, if_true, List.length_cons]
      omega
    | false =>
      have hFa : F a ≠ none := fun h => by simp [(hp a).mp h] at hpa
      obtain ⟨b, hb⟩ := Option.ne_none_iff_exists'.mp hFa
      rw [List.filterMap_cons, hb, List.countP_cons]
      simp only [hpa, List.length_cons, Bool.false_eq_true, if_false]
      omega

theorem filterMap_filter_eq {α β : Type} (F : α → Option β) (p : α → Bool)
    (hp : ∀ r, F r = none ↔ p r = true) :
    ∀ l : List α, (l.filter (fun r => ! p r)).filterMap F = l.filterMap F := by
  intro l
  induction l with
  | nil => rfl
  | cons a l ih =>
    by_cases ha : p a = true
    · rw [List.filter_cons, List.filterMap_cons, (hp a).mpr ha]
      simp [ha, ih]
    · have ha' : (!p a) = true := by
        simp only [Bool.not_eq_true] at ha ⊢
        simp [ha]
      rw [List.filter_cons, if_pos ha', List.filterMap_cons,
        List.filterMap_cons]
      cases F a <;> simp [ih]

theorem any_filter_not {α : Type} (p : α → Bool) (l : List α) :
    (l.filter (fun r => ! p r)).any p = false := by
  induction l with
  | nil => rfl
  | cons a l ih => by_cases ha : p a = true <;> simp [List.filter_cons, ha, ih]

/-- **C7.** Unparseable-row handling: when the up-front checks pass, the run
always succeeds whatever the rows hold; the rows with unparseable date or
time are exactly the ones excluded (usable + dropped = total), the drop is
surfaced as a warning exactly when at least one row was dropped, and the run
behaves as if it had processed only the parseable rows. -/
theorem filas_no_analizables (t : HornoTiempos) (hi hf : Hora)
    (pf : String → Option Int) (tabla : Tabla)
    (h0 : t.algunoCero = false)
    (hc : columnas_necesarias.all (· ∈ tabla.columnas) = true) :
    ∃ s, pipeline t hi hf pf tabla = .ok s ∧
      s.filasUsables.length + tabla.filas.countP (filaInvalida pf) =
        tabla.filas.length ∧
      (s.advertenciaFilas = true ↔
        0 < tabla.filas.countP (filaInvalida pf)) ∧
      pipeline t hi hf pf
          ⟨tabla.columnas,
           tabla.filas.filter (fun r => ! filaInvalida pf r)⟩ =
        .ok { advertenciaFilas := false,
              filasUsables :=
                tabla.filas.filterMap (normalizarFila t hi hf pf),
              filasEnTurno :=
                (tabla.filas.filterMap (normalizarFila t hi hf pf)).filter
                  (·.enRango),
              resumen := resumenMateriales
                ((tabla.filas.filterMap (normalizarFila t hi hf pf)).filter
                  (·.enRango)),
              total := ((resumenMateriales
                ((tabla.filas.filterMap (normalizarFila t hi hf pf)).filter
                  (·.enRango))).map (·.2)).sum,
              detalle :=
                ((tabla.filas.filterMap (normalizarFila t hi hf pf)).filter
                  (·.enRango)).map
                  (fun r => ⟨r.material, r.horno, r.cantidad, r.salida⟩) } := by
  have hp := fun r => normalizarFila_none_iff t hi hf pf r
  refine ⟨_, pipeline_eq_ok t hi hf pf tabla h0 hc, ?_, ?_, ?_⟩
  · exact length_filterMap_add_countP _ _ hp tabla.filas
  · show tabla.filas.any (filaInvalida pf) = true ↔ _
    simp [List.any_eq_true, List.countP_pos_iff]
  · rw [pipeline_eq_ok t hi hf pf
      ⟨tabla.columnas, tabla.filas.filter (fun r => ! filaInvalida pf r)⟩
      h0 hc]
    dsimp only
    rw [filterMap_filter_eq (normalizarFila t hi hf pf) (filaInvalida pf) hp
      tabla.filas]
    rw [any_filter_not (filaInvalida pf) tabla.filas]

/-- Witness for C7 at the sample run: 3 input rows, 2 with unparseable
date/time, 1 usable — counts add up. -/
theorem filas_no_analizables_witness :
    ejemploSalida.filasUsables.length +
      ejemploTabla.filas.countP (filaInvalida ejemploParseFecha) =
      ejemploTabla.filas.length := by
  obtain ⟨s, hok, hcount, -, -⟩ := filas_no_analizables ⟨1, 1, 1, 1⟩ ⟨6, 0, 0⟩
    ⟨14, 0, 0⟩ ejemploParseFecha ejemploTabla (by decide) (by decide)
  have hs : s = ejemploSalida := Except.ok.inj (hok.symm.trans pipeline_ejemplo)
  rw [hs] at hcount
  exact hcount

theorem campoNum_le (maxVal : Nat) (cs : List Char) (v : Nat)
    (h : campoNum maxVal cs = some v) : v ≤ maxVal := by
  unfold campoNum at h
  by_cases h1 : (cs.length = 1 ∨ cs.length = 2) ∧ cs.all Char.isDigit
  · rw [if_pos h1] at h
    by_cases h2 : valorDigitos cs ≤ maxVal
    · rw [if_pos h2] at h
      rw [← Option.some_inj.mp h]
      exact h2
    · rw [if_neg h2] at h
      exact absurd h (by simp)
  · rw [if_neg h1] at h
    exact absurd h (by simp)

theorem strptimeHM_valido (cs : List Char) (t : Hora)
    (h : strptimeHM cs = some t) :
    t.hour ≤ 23 ∧ t.minute ≤ 59 ∧ t.second ≤ 59 := by
  unfold strptimeHM at h
  split at h
  next x ca cb heq =>
    cases hA : campoNum 23 ca with
    | none => rw [hA] at h; exact absurd h (by simp)
    | some hv =>
      cases hB : campoNum 59 cb with
      | none => rw [hA, hB] at h; exact absurd h (by simp)
      | some mv =>
        rw [hA, hB] at h
        simp only [Option.bind_eq_bind, Option.some_bind] at h
        rw [← Option.some_inj.mp h]
        exact ⟨campoNum_le 23 ca hv hA, campoNum_le 59 cb mv hB,
          Nat.zero_le _⟩
  next => exact absurd h (by simp)

theorem strptimeHMS_valido (cs : List Char) (t : Hora)
    (h : strptimeHMS cs = some t) :
    t.hour ≤ 23 ∧ t.minute ≤ 59 ∧ t.second ≤ 59 := by
  unfold strptimeHMS at h
  split at h
  next x ca cb cc heq =>
    cases hA : campoNum 23 ca with
    | none => rw [hA] at h; exact absurd h (by simp)
    | some hv =>
      cases hB : campoNum 59 cb with
      | none => rw [hA, hB] at h; exact absurd h (by simp)
      | some mv =>
        cases hC : campoNum 59 cc with
        | none => rw [hA, hB, hC] at h; exact absurd h (by simp)
        | some sv =>
          rw [hA, hB, hC] at h
          simp only [Option.bind_eq_bind, Option.some_bind] at h
          rw [← Option.some_inj.mp h]
          exact ⟨campoNum_le 23 ca hv hA, campoNum_le 59 cb mv hB,
            campoNum_le 59 cc sv hC⟩
  next => exact absurd h (by simp)

/-- **C8.** Time parsing totality and priority: `parse_hora` attempts the
accepted formats in a fixed order — `%H:%M` first, and its success wins;
only when `%H:%M` fails is `%H:%M:%S` tried, so when neither matches the
result is `none` (an unparseable marker, not an exception — the function is
total on all strings).  Every successfully parsed value is a valid
time-of-day. -/
theorem parse_hora_prioridad (h : String) :
    (∀ t, strptimeHM (recortar h.data) = some t → parse_hora h = some t) ∧
    (strptimeHM (recortar h.data) = none →
      parse_hora h = strptimeHMS (recortar h.data)) ∧
    (∀ t, parse_hora h = some t →
      t.hour ≤ 23 ∧ t.minute ≤ 59 ∧ t.second ≤ 59) := by
  refine ⟨?_, ?_, ?_⟩
  · intro t ht
    unfold parse_hora
    rw [ht]
  · intro hn
    unfold parse_hora
    rw [hn]
  · intro t ht
    unfold parse_hora at ht
    cases hHM : strptimeHM (recortar h.data) with
    | some t' =>
      rw [hHM] at ht
      exact Option.some_inj.mp ht ▸ strptimeHM_valido _ t' hHM
    | none =>
      rw [hHM] at ht
      exact strptimeHMS_valido _ t ht

/-- Witness for C8: `%H:%M` succeeds on `"06:00"` and its result wins. -/
theorem parse_hora_prioridad_witness :
    parse_hora "06:00" = some ⟨6, 0, 0⟩ :=
  (parse_hora_prioridad "06:00").1 ⟨6, 0, 0⟩ (by decide)

theorem insertar_keys (m : String) (q : Int) :
    ∀ l : List (String × Int), ∀ p ∈ insertarMaterial m q l,
      p.1 = m ∨ ∃ p' ∈ l, p.1 = p'.1 := by
  intro l
  induction l with
  | nil =>
    intro p hp
    rw [insertarMaterial] at hp
    simp at hp
    simp [hp]
  | cons a l ih =>
    intro p hp
    rw [insertarMaterial] at hp
    by_cases h1 : m = a.1
    · rw [if_pos h1] at hp
      rcases List.mem_cons.mp hp with h | h
      · exact Or.inr ⟨a, List.mem_cons_self a l, by simp [h]⟩
      · exact Or.inr ⟨p, List.mem_cons_of_mem a h, rfl⟩
    · rw [if_neg h1] at hp
      by_cases h2 : m < a.1
      · rw [if_pos h2] at hp
        rcases List.mem_cons.mp hp with h | h
        · exact Or.inl (by simp [h])
        · exact Or.inr ⟨p, h, rfl⟩
      · rw [if_neg h2] at hp
        rcases List.mem_cons.mp hp with h | h
        · exact Or.inr ⟨a, List.mem_cons_self a l, by simp [h]⟩
        · rcases ih p h with h' | ⟨p', hp', h'⟩
          · exact Or.inl h'
          · exact Or.inr ⟨p', List.mem_cons_of_mem a hp', h'⟩

theorem insertar_pairwise (m : String) (q : Int) :
    ∀ l : List (String × Int),
      l.Pairwise (fun a b => a.1 < b.1) →
      (insertarMaterial m q l).Pairwise (fun a b => a.1 < b.1) := by
  intro l
  induction l with
  | nil =>
    intro _
    rw [insertarMaterial]
    exact List.pairwise_singleton _ _
  | cons a l ih =>
    intro hl
    rw [insertarMaterial]
    rcases List.pairwise_cons.mp hl with ⟨ha, hl'⟩
    by_cases h1 : m = a.1
    · rw [if_pos h1]
      exact List.pairwise_cons.mpr ⟨ha, hl'⟩
    · rw [if_neg h1]
      by_cases h2 : m < a.1
      · rw [if_pos h2]
        refine List.pairwise_cons.mpr ⟨?_, hl⟩
        intro b hb
        rcases List.mem_cons.mp hb with h | h
        · simpa [h] using h2
        · exact lt_trans h2 (ha b h)
      · rw [if_neg h2]
        refine List.pairwise_cons.mpr ⟨?_, ih hl'⟩
        intro b hb
        rcases insertar_keys m q l b hb with h | ⟨p', hp', h⟩
        · rw [h]
          exact lt_of_le_of_ne (not_lt.mp h2) (Ne.symm h1)
        · rw [h]
          exact ha p' hp'

theorem insertar_sum (m : String) (q : Int) :
    ∀ l : List (String × Int),
      ((insertarMaterial m q l).map (·.2)).sum = q + (l.map (·.2)).sum := by
  intro l
  induction l with
  | nil => simp [insertarMaterial]
  | cons a l ih =>
    rw [insertarMaterial]
    by_cases h1 : m = a.1
    · rw [if_pos h1]
      simp only [List.map_cons, List.sum_cons]
      ring
    · rw [if_neg h1]
      by_cases h2 : m < a.1
      · rw [if_pos h2]
        simp only [List.map_cons, List.sum_cons]
      · rw [if_neg h2]
        simp only [List.map_cons, List.sum_cons, ih]
        ring

theorem insertar_filter_sum (m : String) (q : Int) (m' : String) :
    ∀ l : List (String × Int),
      (((insertarMaterial m q l).filter (fun p => p.1 = m')).map (·.2)).sum =
        (if m' = m then q else 0) +
          ((l.filter (fun p => p.1 = m')).map (·.2)).sum := by
  intro l
  induction l with
  | nil =>
    by_cases hm : m' = m
    · simp [insertarMaterial, List.filter_cons, hm]
    · simp [insertarMaterial, List.filter_cons, hm,
        show ¬ m = m' from fun h => hm h.symm]
  | cons a l ih =>
    rw [insertarMaterial]
    by_cases h1 : m = a.1
    · rw [if_pos h1]
      by_cases ha : a.1 = m'
      · have hm : m' = m := by rw [h1, ha]
        simp [List.filter_cons, ha, hm]
        ring
      · have hm : ¬ m' = m := fun h => ha (by rw [← h1, ← h])
        simp [List.filter_cons, ha, hm]
    · rw [if_neg h1]
      by_cases h2 : m < a.1
      · rw [if_pos h2]
        by_cases hm : m' = m
        · have hA : ¬ a.1 = m' := fun h => h1 (h.trans hm).symm
          simp [List.filter_cons, hm, hA]
        · have hB : ¬ m = m' := fun h => hm h.symm
          simp [List.filter_cons, hm, hB]
      · rw [if_neg h2]
        by_cases ha : a.1 = m'
        · simp [List.filter_cons, ha, ih]
          ring
        · simp [List.filter_cons, ha, ih]

theorem resumen_pairwise :
    ∀ rows : List FilaCalc,
      (resumenMateriales rows).Pairwise (fun a b => a.1 < b.1) := by
  intro rows
  induction rows with
  | nil => exact List.Pairwise.nil
  | cons r rows ih =>
    rw [resumenMateriales]
    exact insertar_pairwise r.material r.cantidad _ ih

theorem resumen_sum :
    ∀ rows : List FilaCalc,
      ((resumenMateriales rows).map (·.2)).sum =
        (rows.map (·.cantidad)).sum := by
  intro rows
  induction rows with
  | nil => rfl
  | cons r rows ih =>
    rw [resumenMateriales, insertar_sum, ih]
    simp

theorem resumen_filter_sum :
    ∀ (rows : List FilaCalc) (m : String),
      (((resumenMateriales rows).filter (fun p => p.1 = m)).map (·.2)).sum =
        ((rows.filter (fun r => r.material = m)).map (·.cantidad)).sum := by
  intro rows m
  induction rows with
  | nil => rfl
  | cons r rows ih =>
    rw [resumenMateriales, insertar_filter_sum, ih]
    by_cases hm : r.material = m
    · simp [List.filter_cons, hm]
    · simp [List.filter_cons, hm, show ¬ m = r.material from fun h => hm h.symm]

theorem resumen_keys :
    ∀ rows : List FilaCalc, ∀ p ∈ resumenMateriales rows,
      ∃ r ∈ rows, r.material = p.1 := by
  intro rows
  induction rows with
  | nil => intro p hp; exact absurd hp (by simp [resumenMateriales])
  | cons r rows ih =>
    intro p hp
    rw [resumenMateriales] at hp
    rcases insertar_keys r.material r.cantidad _ p hp with h | ⟨p', hp', h⟩
    · exact ⟨r, List.mem_cons_self r rows, h.symm⟩
    · obtain ⟨r', hr', h'⟩ := ih p' hp'
      exact ⟨r', List.mem_cons_of_mem r hr', by rw [h', ← h]⟩

/-- **C9.** Aggregation: in every successful run the summary is strictly
sorted by material, maps each material to the sum of the quantities of its
in-shift rows (and only materials with an in-shift row appear), the total is
the sum over all in-shift rows, and the per-row detail is the in-shift rows
projected to (material, kiln, quantity, exit) in original input order (the
in-shift rows are a sublist of the usable rows). -/
theorem agregacion_por_material (t : HornoTiempos) (hi hf : Hora)
    (pf : String → Option Int) (tabla : Tabla) (s : Salida)
    (h : pipeline t hi hf pf tabla = .ok s) :
    s.resumen.Pairwise (fun a b => a.1 < b.1) ∧
    (∀ m : String,
      ((s.resumen.filter (fun p => p.1 = m)).map (·.2)).sum =
        ((s.filasEnTurno.filter (fun r => r.material = m)).map
          (·.cantidad)).sum) ∧
    (∀ p ∈ s.resumen, ∃ r ∈ s.filasEnTurno, r.material = p.1) ∧
    s.total = (s.filasEnTurno.map (·.cantidad)).sum ∧
    s.filasEnTurno = s.filasUsables.filter (·.enRango) ∧
    s.detalle = s.filasEnTurno.map
      (fun r => FilaDetalle.mk r.material r.horno r.cantidad r.salida) ∧
    s.filasEnTurno.Sublist s.filasUsables := by
  obtain ⟨-, -, rfl⟩ := pipeline_ok_inv t hi hf pf tabla s h
  exact ⟨resumen_pairwise _, fun m => resumen_filter_sum _ m, resumen_keys _,
    resumen_sum _, rfl, rfl, List.filter_sublist _⟩

/-- Witness for C9 at the sample run: the reported total equals the sum of
the in-shift quantities. -/
theorem agregacion_por_material_witness :
    ejemploSalida.total = (ejemploSalida.filasEnTurno.map (·.cantidad)).sum :=
  (agregacion_por_material ⟨1, 1, 1, 1⟩ ⟨6, 0, 0⟩ ⟨14, 0, 0⟩ ejemploParseFecha
    ejemploTabla ejemploSalida pipeline_ejemplo).2.2.2.1

theorem primerRunDigitos_none :
    ∀ cs : List Char, (∀ c ∈ cs, c.isDigit = false) →
      primerRunDigitos cs = none := by
  intro cs
  induction cs with
  | nil => intro _; rfl
  | cons c cs ih =>
    intro h
    rw [primerRunDigitos]
    rw [h c (List.mem_cons_self c cs)]
    exact ih (fun c' hc' => h c' (List.mem_cons_of_mem c hc'))

/-- A sample table whose single row has a kiln field without any digit. -/
def ejemploTablaSinHorno : Tabla :=
  ⟨columnas_necesarias, [⟨"2024-05-06", "07:00", "sin dato", 4, "M"⟩]⟩

/-- The normalised form of that row: undefined kiln, exit = entry. -/
def ejemploFilaSinHorno : FilaCalc :=
  ⟨none, "M", 4, 0, ⟨7, 0, 0⟩, 25200, 25200, true⟩

/-- The output of the digitless-kiln sample run. -/
def ejemploSalidaSinHorno : Salida :=
  ⟨false, [ejemploFilaSinHorno], [ejemploFilaSinHorno], [("M", 4)], 4,
   [⟨"M", none, 4, 25200⟩]⟩

theorem pipeline_ejemplo_sin_horno :
    pipeline ⟨8, 8, 8, 8⟩ ⟨6, 0, 0⟩ ⟨14, 0, 0⟩ ejemploParseFecha
      ejemploTablaSinHorno = .ok ejemploSalidaSinHorno := by
  simp +decide [pipeline, normalizarFila, filaInvalida, resumenMateriales,
    insertarMaterial, calcular_salida, en_rango, rango, combine,
    HornoTiempos.get, HornoTiempos.algunoCero, Hora.toSeconds,
    columnas_necesarias, List.filterMap, List.filter, List.any, List.all,
    List.map, List.sum, List.foldl, parse_hora, extraerDigitos, recortar,
    camposDosPuntos, campoNum, valorDigitos, primerRunDigitos, strptimeHM,
    strptimeHMS, Char.toNat, ejemploParseFecha, ejemploTablaSinHorno,
    ejemploFilaSinHorno, ejemploSalidaSinHorno]
  norm_num [resumenMateriales, insertarMaterial, List.foldr, List.map,
    ejemploFilaSinHorno]

/-- **C10.** Implicit kiln-id normalization: the kiln field is read as a
string and its first run of decimal digits is the kiln number (`"Horno 3"` →
kiln 3); a kiln field with no digits yields an undefined kiln (`none`) — such
a row is not dropped, the cure-table lookup falls back to duration 0 so its
exit equals its entry, and it can still be classified in-shift and counted,
as the concrete digitless-kiln run shows. -/
theorem normalizacion_horno :
    extraerDigitos "Horno 3" = some 3 ∧
    (∀ s : String, (∀ c ∈ s.data, c.isDigit = false) →
      extraerDigitos s = none) ∧
    (∀ (t : HornoTiempos) (e : ℚ), calcular_salida t none e = e) ∧
    pipeline ⟨8, 8, 8, 8⟩ ⟨6, 0, 0⟩ ⟨14, 0, 0⟩ ejemploParseFecha
      ejemploTablaSinHorno = .ok ejemploSalidaSinHorno ∧
    ejemploSalidaSinHorno.filasUsables = [ejemploFilaSinHorno] ∧
    ejemploFilaSinHorno.horno = none ∧
    ejemploFilaSinHorno.salida = ejemploFilaSinHorno.entrada ∧
    ejemploFilaSinHorno.enRango = true ∧
    ejemploSalidaSinHorno.total = 4 := by
  refine ⟨by decide, ?_, ?_, pipeline_ejemplo_sin_horno, rfl, rfl, rfl, rfl,
    rfl⟩
  · intro s hs
    unfold extraerDigitos
    rw [primerRunDigitos_none s.data hs]
    rfl
  · intro t e
    simp [calcular_salida, HornoTiempos.get]

/-- Witness for C10: a digitless kiln field yields no kiln number. -/
theorem normalizacion_horno_witness :
    extraerDigitos "sin dato" = none :=
  normalizacion_horno.2.1 "sin dato" (by decide)
